import Mathlib

/-!
Verification of the CBB betting pipeline (enhanced_betting_system v6 / v7).

Embedding conventions:
* All numeric computation of the source (margins, edges, Kelly fractions,
  stakes) is Python float arithmetic; it is embedded as exact arithmetic
  over the rationals.
* The function `scipy.stats.norm.cdf` is an external numeric routine; it is
  embedded as an explicit function parameter `ncdf : Q -> Q -> Q -> Q`
  (argument order x, loc, scale, as in scipy). Theorems that depend on
  distributional facts state the needed properties of `ncdf` as hypotheses.
* The Python builtin `round(x)` (round half to even) is semantic for stakes
  (stakes are multiples of 5) and is embedded exactly as `pyRound`.
  The display-precision roundings `round(x, 1)` and `round(x, 4)` applied to
  the stored copies of mdl, edge, cover and kelly in the `Pred` constructor
  only trim reported decimals of float values; the embedding keeps these
  fields exact.
* The optional adjustment providers (injuries, rest, matchup, travel, line
  movement) are external modules consumed through a narrow numeric interface;
  they are embedded as `Option`-valued function fields of a configuration
  record, `none` meaning the module failed to import.
* Factor strings are built by Python f-string interpolation of floats; the
  embedding represents each emitted factor as a constructor of the inductive
  type `Factor` recording its provenance and numeric payload.
-/

/-- Lower-casing of one character, mirroring `str.lower` on ASCII names. -/
def lowerChar (c : Char) : Char :=
  if c.isUpper then Char.ofNat (c.toNat + 32) else c

/-- Embedding of Python `str.lower` (character-wise). -/
def toLowerStr (s : String) : String :=
  ⟨s.data.map lowerChar⟩

/-- Embedding of Python `str.strip` (drop leading and trailing whitespace). -/
def stripStr (s : String) : String :=
  ⟨(((s.data.dropWhile Char.isWhitespace).reverse).dropWhile Char.isWhitespace).reverse⟩

/-- Key normalization used by team lookup: `name.lower().strip()`. -/
def normName (s : String) : String :=
  stripStr (toLowerStr s)

/-- Embedding of the Python builtin `round` on a float: round half to even. -/
def pyRound (x : ℚ) : ℤ :=
  let f := ⌊x⌋
  let r := x - f
  if r < 1/2 then f
  else if 1/2 < r then f + 1
  else if Even f then f else f + 1

/-- The stake rounding `round(amt/5)*5` of the source. -/
def round5 (x : ℚ) : ℚ :=
  ((pyRound (x / 5) : ℤ) : ℚ) * 5

/-- SPREAD_STD = 11.0 (both variants). -/
def SPREAD_STD : ℚ := 11

/-- KELLY_FRAC = 0.15 (both variants). -/
def KELLY_FRAC : ℚ := 0.15

/-- MIN_EDGE = 2.0 (both variants). -/
def MIN_EDGE : ℚ := 2

/-- MIN_COVER = 0.52 (both variants). -/
def MIN_COVER : ℚ := 0.52

/-- MAX_BETS = 5 (both variants). -/
def MAX_BETS : ℕ := 5

/-- The CONFERENCE_HCA dictionary (both variants). -/
def CONFERENCE_HCA : List (String × ℚ) :=
  [("B12", 4.0), ("B10", 4.0), ("SEC", 4.0), ("ACC", 3.8), ("BE", 3.8),
   ("MWC", 3.8), ("WCC", 3.5), ("A10", 3.5), ("default", 3.5)]

/-- `CONFERENCE_HCA.get(conf, 3.5)`: dictionary lookup with default 3.5. -/
def confHCA (conf : String) : ℚ :=
  match List.lookup conf CONFERENCE_HCA with
  | some v => v
  | none => 3.5

/-- The ELITE_VENUES dictionary (both variants). -/
def ELITE_VENUES : List (String × ℚ) :=
  [("Duke", 1.2), ("Kansas", 1.2), ("Kentucky", 1.0), ("Gonzaga", 1.0),
   ("Purdue", 1.0), ("Auburn", 1.0)]

/-- The elite-venue bonus of a team name, 0 if the venue is not in the table. -/
def eliteBonus (team : String) : ℚ :=
  (List.lookup team ELITE_VENUES).getD 0

/-- One row of the ratings store (loader record for one team). -/
structure TeamRating where
  team : String
  rank : ℤ
  conf : String
  adj_o : ℚ
  adj_d : ℚ
  adj_t : ℚ

/-- The loader `get`: `self.teams.get(name.lower().strip())`. The store is the
dictionary of the loader, keyed by lower-cased team name. -/
def getTeam (store : List (String × TeamRating)) (name : String) : Option TeamRating :=
  List.lookup (normName name) store

/-- Provenance-tagged embedding of the factor strings emitted by the source. -/
inductive Factor where
  | eliteVenue (bonus : ℚ)
  | injuries (team : String) (impact : ℚ)
  | player (p : String)
  | rest (reason : String)
  | matchup (s : String)
  | travel (s : String)
  | sharpMoney (move : ℚ)
  | lineAgainst (move : ℚ)

/-- The pace and efficiency baseline margin shared by both variants:
pace, h_eff, a_eff, conference home-court advantage, h_pts - a_pts. -/
def baselineMargin (home away : TeamRating) : ℚ :=
  let pace := home.adj_t * away.adj_t / 67.5
  let h_eff := home.adj_o * away.adj_d / 100
  let a_eff := away.adj_o * home.adj_d / 100
  let hca := confHCA home.conf
  let h_pts := h_eff * pace / 100 + hca / 2
  let a_pts := a_eff * pace / 100 - hca / 2
  h_pts - a_pts

/-- Optional adjustment providers of the v6 predictor: `self.enhanced_inj`
(team -> impact points and affected player strings) and `self.rest`
(home, away -> adjustment and optional reason; the reason is `none` when the
source string is falsy). -/
structure CfgV6 where
  enhancedInj : Option (String → ℚ × List String)
  rest : Option (String → String → ℚ × Option String)

/-- The v6 configuration with every optional provider absent. -/
def cfg0V6 : CfgV6 := ⟨none, none⟩

/-- The v6 Kelly sizing of line 146:
`max(0,((0.909*cover)-(1-cover))/0.909*KELLY_FRAC) if cover>MIN_COVER else 0`. -/
def kellyV6 (cover : ℚ) : ℚ :=
  if MIN_COVER < cover then
    max 0 ((0.909 * cover - (1 - cover)) / 0.909 * KELLY_FRAC)
  else 0

/-- The v6 h_margin computation (lines 110-134): baseline, elite-venue bonus
(no factor emitted in v6), injury folding, rest folding. Returns the final
h_margin together with the ordered factor list. -/
def hMarginV6 (cfg : CfgV6) (home away : TeamRating) : ℚ × List Factor :=
  let m0 := baselineMargin home away
  let m1 := match List.lookup home.team ELITE_VENUES with
    | some b => m0 + b
    | none => m0
  let inj : ℚ × List Factor := match cfg.enhancedInj with
    | none => (0, [])
    | some g =>
      let hi := (g home.team).1
      let hp := (g home.team).2
      let ai := (g away.team).1
      let ap := (g away.team).2
      let adj := (ai - hi) * 0.7
      if 0.5 < |adj| then
        (adj,
          (if 1 < hi then [Factor.injuries home.team hi] else [])
            ++ (hp.take 2).map Factor.player
            ++ (if 1 < ai then [Factor.injuries away.team ai] else [])
            ++ (ap.take 2).map Factor.player)
      else (0, [])
  let rst : ℚ × List Factor := match cfg.rest with
    | none => (0, [])
    | some g =>
      let radj := (g home.team away.team).1
      if 0.3 < |radj| then
        (radj,
          match (g home.team away.team).2 with
          | some reason => [Factor.rest reason]
          | none => [])
      else (0, [])
  (m1 + inj.1 + rst.1, inj.2 ++ rst.2)

/-- The v6 Pred record. The stored mdl, edge, cover, kelly and margin are kept
exact (the source applies display-precision float rounding to them). -/
structure PredV6 where
  home : String
  away : String
  mkt : ℚ
  mdl : ℚ
  edge : ℚ
  bet_team : String
  bet_line : ℚ
  cover : ℚ
  kelly : ℚ
  winner : String
  margin : ℚ
  factors : List Factor

/-- The body of `Predictor.predict` (v6) after both teams were found. -/
def predictCoreV6 (ncdf : ℚ → ℚ → ℚ → ℚ) (cfg : CfgV6)
    (home away : TeamRating) (mkt_spread : ℚ) : PredV6 :=
  let hm := hMarginV6 cfg home away
  let h_margin := hm.1
  let mdl := -h_margin
  let winner := if 0 < h_margin then home.team else away.team
  let margin_abs := |h_margin|
  let edge := |mkt_spread - mdl|
  let bet_team := if mdl < mkt_spread then home.team else away.team
  let bet_line := if mdl < mkt_spread then mkt_spread else -mkt_spread
  let cover :=
    if bet_team = home.team then 1 - ncdf (-mkt_spread) (-mdl) SPREAD_STD
    else ncdf (-mkt_spread) (-mdl) SPREAD_STD
  let kelly := kellyV6 cover
  { home := home.team, away := away.team, mkt := mkt_spread, mdl := mdl,
    edge := edge, bet_team := bet_team, bet_line := bet_line, cover := cover,
    kelly := kelly, winner := winner, margin := margin_abs, factors := hm.2 }

/-- `Predictor.predict` (v6): returns `none` when either team lookup fails. -/
def predictV6 (ncdf : ℚ → ℚ → ℚ → ℚ) (cfg : CfgV6)
    (store : List (String × TeamRating)) (home_name away_name : String)
    (mkt_spread : ℚ) : Option PredV6 :=
  match getTeam store home_name, getTeam store away_name with
  | some home, some away => some (predictCoreV6 ncdf cfg home away mkt_spread)
  | _, _ => none

/-- One normalized market line of the v6 odds feed. -/
structure GameV6 where
  home : String
  away : String
  spread : ℚ

/-- The v6 prediction pass of `main`: predictions in feed order, with failed
matchups dropped (`[x for x in preds if x]`). -/
def pipelineV6 (ncdf : ℚ → ℚ → ℚ → ℚ) (cfg : CfgV6)
    (store : List (String × TeamRating)) (games : List GameV6) : List PredV6 :=
  games.filterMap fun g => predictV6 ncdf cfg store g.home g.away g.spread

/-- The v6 selection filter `x.edge>=MIN_EDGE and x.cover>=MIN_COVER`. -/
def qualifiesV6 (x : PredV6) : Bool :=
  decide (MIN_EDGE ≤ x.edge ∧ MIN_COVER ≤ x.cover)

/-- Descending-edge comparison used to embed the stable
`preds.sort(key=lambda x:x.edge,reverse=True)`. -/
def keyDesc {α : Type} (key : α → ℚ) : α → α → Prop :=
  fun x y => key y ≤ key x

instance {α : Type} (key : α → ℚ) : DecidableRel (keyDesc key) :=
  fun x y => inferInstanceAs (Decidable (key y ≤ key x))

instance {α : Type} (key : α → ℚ) : IsTotal α (keyDesc key) :=
  ⟨fun a b => le_total (key b) (key a)⟩

instance {α : Type} (key : α → ℚ) : IsTrans α (keyDesc key) :=
  ⟨fun _ _ _ h1 h2 => le_trans h2 h1⟩

/-- The v6 bet selection: stable sort by descending edge, threshold filter,
truncation to MAX_BETS. -/
def selectBetsV6 (preds : List PredV6) : List PredV6 :=
  ((List.insertionSort (keyDesc PredV6.edge) preds).filter qualifiesV6).take MAX_BETS

/-- The per-bet amount of the v6 staking loop at a given running total. -/
def amtV6 (bankroll total : ℚ) (b : PredV6) : ℚ :=
  round5 (min (bankroll * b.kelly) (min (bankroll * 0.03) (bankroll * 0.1 - total)))

/-- The v6 staking loop of `main` (lines 200-217): per bet, the amount is
`min(BANKROLL*b.kelly, BANKROLL*0.03, BANKROLL*0.1-total)` rounded with
`round(amt/5)*5`; amounts below 20 are skipped (`continue`), staked amounts
are added to the running total. Returns the placed (bet, stake) pairs. -/
def stakesV6 (bankroll : ℚ) : List PredV6 → ℚ → List (PredV6 × ℚ)
  | [], _ => []
  | b :: bs, total =>
    let amt := amtV6 bankroll total b
    if amt < 20 then stakesV6 bankroll bs total
    else (b, amt) :: stakesV6 bankroll bs (total + amt)

/-- Optional adjustment providers of the v7 predictor. The line tracker is
keyed by the pair (away_name, home_name) that the source interpolates into
the game key string; it returns the movement value of the tracked game, or
`none` when the game is untracked or the movement record is absent. -/
structure CfgV7 where
  enhancedInj : Option (String → ℚ × List String)
  rest : Option (String → String → ℚ × Option String)
  matchups : Option (String → String → ℚ × List String)
  travel : Option (String → String → ℤ → ℚ × Option String)
  tracker : Option (String → String → Option ℚ)

/-- The v7 configuration with every optional provider absent. -/
def cfg0V7 : CfgV7 := ⟨none, none, none, none, none⟩

/-- The v7 Kelly sizing of line 240:
`max(0,((0.909*cover)-(1-cover))/0.909*KELLY_FRAC)*kelly_mult if cover>MIN_COVER else 0`. -/
def kellyV7 (cover mult : ℚ) : ℚ :=
  if MIN_COVER < cover then
    max 0 ((0.909 * cover - (1 - cover)) / 0.909 * KELLY_FRAC) * mult
  else 0

/-- The v7 h_margin computation (lines 174-215): baseline, elite-venue bonus
with emitted factor, injury folding (player factors only under the per-team
threshold in v7), rest, matchup and travel folding. -/
def hMarginV7 (cfg : CfgV7) (home away : TeamRating) (game_hour_et : ℤ) :
    ℚ × List Factor :=
  let m0 := baselineMargin home away
  let elite : ℚ × List Factor := match List.lookup home.team ELITE_VENUES with
    | some b => (b, [Factor.eliteVenue b])
    | none => (0, [])
  let inj : ℚ × List Factor := match cfg.enhancedInj with
    | none => (0, [])
    | some g =>
      let hi := (g home.team).1
      let hp := (g home.team).2
      let ai := (g away.team).1
      let ap := (g away.team).2
      let adj := (ai - hi) * 0.7
      if 0.5 < |adj| then
        (adj,
          (if 1 < hi then
            [Factor.injuries home.team hi] ++ (hp.take 2).map Factor.player
           else [])
            ++ (if 1 < ai then
              [Factor.injuries away.team ai] ++ (ap.take 2).map Factor.player
             else []))
      else (0, [])
  let rst : ℚ × List Factor := match cfg.rest with
    | none => (0, [])
    | some g =>
      let radj := (g home.team away.team).1
      if 0.3 < |radj| then
        (radj,
          match (g home.team away.team).2 with
          | some reason => [Factor.rest reason]
          | none => [])
      else (0, [])
  let mtch : ℚ × List Factor := match cfg.matchups with
    | none => (0, [])
    | some g =>
      let madj := (g home.team away.team).1
      if 0.3 < |madj| then (madj, ((g home.team away.team).2).map Factor.matchup)
      else (0, [])
  let trv : ℚ × List Factor := match cfg.travel with
    | none => (0, [])
    | some g =>
      let tadj := (g home.team away.team game_hour_et).1
      if 0.3 < |tadj| then
        (tadj,
          match (g home.team away.team game_hour_et).2 with
          | some reason => [Factor.travel reason]
          | none => [])
      else (0, [])
  (m0 + elite.1 + inj.1 + rst.1 + mtch.1 + trv.1,
    elite.2 ++ inj.2 ++ rst.2 ++ mtch.2 ++ trv.2)

/-- The v7 Pred record. As in v6 the stored copies are kept exact. -/
structure PredV7 where
  home : String
  away : String
  home_rank : ℤ
  away_rank : ℤ
  mkt : ℚ
  mdl : ℚ
  edge : ℚ
  bet_team : String
  bet_line : ℚ
  cover : ℚ
  kelly : ℚ
  stake : ℚ
  winner : String
  margin : ℚ
  factors : List Factor

/-- The body of `PredictorV7.predict` after both teams were found, including
the line-movement Kelly multiplier and the per-bet stake of lines 228-242. -/
def predictCoreV7 (ncdf : ℚ → ℚ → ℚ → ℚ) (cfg : CfgV7)
    (home away : TeamRating) (home_name away_name : String)
    (mkt_spread : ℚ) (game_hour_et : ℤ) (bankroll : ℚ) : PredV7 :=
  let hm := hMarginV7 cfg home away game_hour_et
  let h_margin := hm.1
  let mdl := -h_margin
  let winner := if 0 < h_margin then home.team else away.team
  let margin_abs := |h_margin|
  let edge := |mkt_spread - mdl|
  let bet_team := if mdl < mkt_spread then home.team else away.team
  let bet_line := if mdl < mkt_spread then mkt_spread else -mkt_spread
  let cover :=
    if bet_team = home.team then 1 - ncdf (-mkt_spread) (-mdl) SPREAD_STD
    else ncdf (-mkt_spread) (-mdl) SPREAD_STD
  let km : ℚ × List Factor := match cfg.tracker with
    | none => (1, [])
    | some t =>
      match t away_name home_name with
      | none => (1, [])
      | some move =>
        if 1 < |move| then
          if (bet_team = home.team ∧ move < -1) ∨ (¬bet_team = home.team ∧ 1 < move) then
            (1.15, [Factor.sharpMoney move])
          else if (bet_team = home.team ∧ 1 < move) ∨ (¬bet_team = home.team ∧ move < -1) then
            (0.85, [Factor.lineAgainst move])
          else (1, [])
        else (1, [])
  let kelly := kellyV7 cover km.1
  let stake := round5 (min (bankroll * kelly) (min (bankroll * 0.03) (bankroll * 0.1)))
  { home := home.team, away := away.team, home_rank := home.rank,
    away_rank := away.rank, mkt := mkt_spread, mdl := mdl, edge := edge,
    bet_team := bet_team, bet_line := bet_line, cover := cover, kelly := kelly,
    stake := stake, winner := winner, margin := margin_abs,
    factors := hm.2 ++ km.2 }

/-- `PredictorV7.predict`: `none` when either team lookup fails. -/
def predictV7 (ncdf : ℚ → ℚ → ℚ → ℚ) (cfg : CfgV7)
    (store : List (String × TeamRating)) (home_name away_name : String)
    (mkt_spread : ℚ) (game_hour_et : ℤ) (bankroll : ℚ) : Option PredV7 :=
  match getTeam store home_name, getTeam store away_name with
  | some home, some away =>
    some (predictCoreV7 ncdf cfg home away home_name away_name mkt_spread
      game_hour_et bankroll)
  | _, _ => none

/-- One normalized market line of the v7 odds feed (pre-game only). -/
structure GameV7 where
  home : String
  away : String
  spread : ℚ
  game_hour_et : ℤ

/-- The v7 prediction pass of `main`. -/
def pipelineV7 (ncdf : ℚ → ℚ → ℚ → ℚ) (cfg : CfgV7)
    (store : List (String × TeamRating)) (bankroll : ℚ)
    (games : List GameV7) : List PredV7 :=
  games.filterMap fun g =>
    predictV7 ncdf cfg store g.home g.away g.spread g.game_hour_et bankroll

/-- The v7 selection filter
`x.edge>=MIN_EDGE and x.cover>=MIN_COVER and x.stake>=20`. -/
def qualifiesV7 (x : PredV7) : Bool :=
  decide (MIN_EDGE ≤ x.edge ∧ MIN_COVER ≤ x.cover ∧ 20 ≤ x.stake)

/-- The v7 bet selection: stable sort by descending edge, threshold filter
(including the minimum stake), truncation to MAX_BETS. -/
def selectBetsV7 (preds : List PredV7) : List PredV7 :=
  ((List.insertionSort (keyDesc PredV7.edge) preds).filter qualifiesV7).take MAX_BETS

/-- A degenerate distribution function on the rationals (point mass at loc):
monotone, one half at the mean, valued in the unit interval. Used to
instantiate the abstract `ncdf` parameter on concrete inputs. -/
def stepCdf (x loc _s : ℚ) : ℚ :=
  if x < loc then 0 else if loc < x then 1 else 1/2

/-- A strictly increasing distribution-function-like map on the rationals,
`1/2 + (x - loc) / (2*(1 + |x - loc|))`. Used to instantiate the abstract
`ncdf` parameter where strict monotonicity around the mean matters. -/
def sigmoidCdf (x loc _s : ℚ) : ℚ :=
  1/2 + (x - loc) / (2 * (1 + |x - loc|))

/-! ### Generic helper lemmas -/

theorem pyRound_eq_low (x : ℚ) (n : ℤ) (h1 : (n : ℚ) ≤ x) (h2 : x < (n : ℚ) + 1/2) :
    pyRound x = n := by
  have hf : ⌊x⌋ = n := by
    rw [Int.floor_eq_iff]
    exact ⟨h1, by linarith⟩
  unfold pyRound
  simp only [hf]
  rw [if_pos]
  linarith

theorem pyRound_eq_high (x : ℚ) (n : ℤ) (h1 : (n : ℚ) + 1/2 < x) (h2 : x < (n : ℚ) + 1) :
    pyRound x = n + 1 := by
  have hf : ⌊x⌋ = n := by
    rw [Int.floor_eq_iff]
    exact ⟨by linarith, by linarith⟩
  unfold pyRound
  simp only [hf]
  rw [if_neg, if_pos]
  · linarith
  · linarith

theorem round5_eq_low (x : ℚ) (n : ℤ) (h1 : (n : ℚ) * 5 ≤ x) (h2 : x < (n : ℚ) * 5 + 5/2) :
    round5 x = (n : ℚ) * 5 := by
  unfold round5
  rw [pyRound_eq_low (x/5) n (by linarith) (by linarith)]

theorem round5_eq_high (x : ℚ) (n : ℤ) (h1 : (n : ℚ) * 5 + 5/2 < x) (h2 : x < (n : ℚ) * 5 + 5) :
    round5 x = (n : ℚ) * 5 + 5 := by
  unfold round5
  rw [pyRound_eq_high (x/5) n (by linarith) (by linarith)]
  push_cast
  ring

theorem pyRound_le (x : ℚ) : (pyRound x : ℚ) ≤ x + 1/2 := by
  have hfl : ((⌊x⌋ : ℤ) : ℚ) ≤ x := Int.floor_le x
  have hfr : x - 1 < ((⌊x⌋ : ℤ) : ℚ) := by
    have := Int.sub_one_lt_floor x
    linarith
  simp only [pyRound]
  split_ifs with h1 h2 h3
  · linarith
  · push_cast
    linarith
  · linarith
  · push_cast
    linarith

theorem floor_le_pyRound (x : ℚ) : ⌊x⌋ ≤ pyRound x := by
  simp only [pyRound]
  split_ifs <;> omega

theorem round5_le (x : ℚ) : round5 x ≤ x + 5/2 := by
  unfold round5
  have := pyRound_le (x / 5)
  linarith

theorem round5_nonneg (x : ℚ) (hx : 0 ≤ x) : 0 ≤ round5 x := by
  unfold round5
  have h1 : (0 : ℤ) ≤ ⌊x / 5⌋ := Int.floor_nonneg.mpr (by positivity)
  have h2 : (0 : ℤ) ≤ pyRound (x / 5) := le_trans h1 (floor_le_pyRound _)
  have : (0 : ℚ) ≤ ((pyRound (x / 5) : ℤ) : ℚ) := by exact_mod_cast h2
  linarith

theorem round5_mul_int (x : ℚ) : ∃ k : ℤ, round5 x = (k : ℚ) * 5 :=
  ⟨pyRound (x / 5), rfl⟩

/-! ### Stable sort lemmas -/

theorem filterKey_orderedInsert {α : Type} (key : α → ℚ) (e : ℚ) (a : α) (l : List α) :
    (List.orderedInsert (keyDesc key) a l).filter (fun x => decide (key x = e)) =
      if key a = e then a :: l.filter (fun x => decide (key x = e))
      else l.filter (fun x => decide (key x = e)) := by
  induction l with
  | nil =>
    by_cases hae : key a = e <;> simp [List.orderedInsert, List.filter, hae]
  | cons b l ih =>
    by_cases hr : keyDesc key a b
    · simp only [List.orderedInsert, if_pos hr]
      by_cases hae : key a = e <;> simp [List.filter_cons, hae]
    · have hab : key a < key b := not_le.mp hr
      simp only [List.orderedInsert, if_neg hr]
      by_cases hae : key a = e
      · have hbe : ¬ key b = e := by
          rw [← hae]
          exact ne_of_gt hab
        simp [List.filter_cons, hbe, ih, hae]
      · by_cases hbe : key b = e <;> simp [List.filter_cons, hbe, ih, hae]

theorem filterKey_insertionSort {α : Type} (key : α → ℚ) (e : ℚ) (l : List α) :
    (List.insertionSort (keyDesc key) l).filter (fun x => decide (key x = e)) =
      l.filter (fun x => decide (key x = e)) := by
  induction l with
  | nil => rfl
  | cons a l ih =>
    simp only [List.insertionSort]
    rw [filterKey_orderedInsert]
    by_cases hae : key a = e <;> simp [List.filter_cons, hae, ih]

/-! ### Staking loop lemmas -/

theorem stakesV6_cons (B : ℚ) (b : PredV6) (bs : List PredV6) (total : ℚ) :
    stakesV6 B (b :: bs) total =
      if amtV6 B total b < 20 then stakesV6 B bs total
      else (b, amtV6 B total b) :: stakesV6 B bs (total + amtV6 B total b) := rfl

theorem amtV6_le_cap (B total : ℚ) (b : PredV6) : amtV6 B total b ≤ B * 0.03 + 5/2 := by
  unfold amtV6
  have h1 := round5_le (min (B * b.kelly) (min (B * 0.03) (B * 0.1 - total)))
  have h2 : min (B * b.kelly) (min (B * 0.03) (B * 0.1 - total)) ≤ B * 0.03 :=
    le_trans (min_le_right _ _) (min_le_left _ _)
  linarith

theorem amtV6_le_remaining (B total : ℚ) (b : PredV6) :
    amtV6 B total b ≤ B * 0.1 - total + 5/2 := by
  unfold amtV6
  have h1 := round5_le (min (B * b.kelly) (min (B * 0.03) (B * 0.1 - total)))
  have h2 : min (B * b.kelly) (min (B * 0.03) (B * 0.1 - total)) ≤ B * 0.1 - total :=
    le_trans (min_le_right _ _) (min_le_right _ _)
  linarith

theorem stakesV6_sum_le (B : ℚ) (bets : List PredV6) :
    ∀ total, total ≤ B * 0.1 + 5/2 →
      ((stakesV6 B bets total).map Prod.snd).sum ≤ B * 0.1 + 5/2 - total := by
  induction bets with
  | nil =>
    intro t ht
    simp [stakesV6]
    linarith
  | cons b bs ih =>
    intro t ht
    rw [stakesV6_cons]
    by_cases hlt : amtV6 B t b < 20
    · rw [if_pos hlt]
      have := ih t ht
      linarith
    · rw [if_neg hlt]
      push_neg at hlt
      have hrem := amtV6_le_remaining B t b
      have hnext : t + amtV6 B t b ≤ B * 0.1 + 5/2 := by linarith
      have := ih (t + amtV6 B t b) hnext
      simp only [List.map_cons, List.sum_cons]
      linarith

theorem stakesV6_mem (B : ℚ) (bets : List PredV6) :
    ∀ total b amt, (b, amt) ∈ stakesV6 B bets total →
      20 ≤ amt ∧ amt ≤ B * 0.03 + 5/2 ∧ ∃ k : ℤ, amt = (k : ℚ) * 5 := by
  induction bets with
  | nil =>
    intro t b amt hmem
    simp [stakesV6] at hmem
  | cons c bs ih =>
    intro t b amt hmem
    rw [stakesV6_cons] at hmem
    by_cases hlt : amtV6 B t c < 20
    · rw [if_pos hlt] at hmem
      exact ih t b amt hmem
    · rw [if_neg hlt] at hmem
      push_neg at hlt
      rcases List.mem_cons.mp hmem with hhd | htl
      · have hb : amt = amtV6 B t c := (Prod.mk.injEq _ _ _ _ ▸ hhd).2
        subst hb
        exact ⟨hlt, amtV6_le_cap B t c, round5_mul_int _⟩
      · exact ih _ b amt htl

/-! ### Selection lemmas -/

theorem mem_selectBetsV6 (preds : List PredV6) (x : PredV6) (hx : x ∈ selectBetsV6 preds) :
    x ∈ preds ∧ qualifiesV6 x = true := by
  unfold selectBetsV6 at hx
  have h1 : x ∈ (List.insertionSort (keyDesc PredV6.edge) preds).filter qualifiesV6 :=
    (List.take_sublist _ _).subset hx
  have h2 := List.mem_filter.mp h1
  exact ⟨((List.perm_insertionSort (keyDesc PredV6.edge) preds).subset) h2.1, h2.2⟩

theorem mem_selectBetsV7 (preds : List PredV7) (x : PredV7) (hx : x ∈ selectBetsV7 preds) :
    x ∈ preds ∧ qualifiesV7 x = true := by
  unfold selectBetsV7 at hx
  have h1 : x ∈ (List.insertionSort (keyDesc PredV7.edge) preds).filter qualifiesV7 :=
    (List.take_sublist _ _).subset hx
  have h2 := List.mem_filter.mp h1
  exact ⟨((List.perm_insertionSort (keyDesc PredV7.edge) preds).subset) h2.1, h2.2⟩

/-! ### Properties of the concrete distribution functions -/

theorem stepCdf_mono (x y loc s : ℚ) (hxy : x ≤ y) : stepCdf x loc s ≤ stepCdf y loc s := by
  unfold stepCdf
  split_ifs
  all_goals try norm_num
  all_goals linarith

theorem stepCdf_half (loc s : ℚ) : stepCdf loc loc s = 1/2 := by
  unfold stepCdf
  simp

theorem stepCdf_nonneg (x loc s : ℚ) : 0 ≤ stepCdf x loc s := by
  unfold stepCdf
  split_ifs <;> norm_num

theorem stepCdf_le_one (x loc s : ℚ) : stepCdf x loc s ≤ 1 := by
  unfold stepCdf
  split_ifs <;> norm_num

theorem sigmoidCdf_half (loc s : ℚ) : sigmoidCdf loc loc s = 1/2 := by
  unfold sigmoidCdf
  norm_num

theorem sigmoidCdf_nonneg (x loc s : ℚ) : 0 ≤ sigmoidCdf x loc s := by
  unfold sigmoidCdf
  have hd : (0:ℚ) < 2 * (1 + |x - loc|) := by positivity
  have : -(1:ℚ)/2 ≤ (x - loc) / (2 * (1 + |x - loc|)) := by
    rw [div_le_div_iff₀ (by norm_num) hd]
    nlinarith [neg_abs_le (x - loc), abs_nonneg (x - loc)]
  linarith

theorem sigmoidCdf_le_one (x loc s : ℚ) : sigmoidCdf x loc s ≤ 1 := by
  unfold sigmoidCdf
  have hd : (0:ℚ) < 2 * (1 + |x - loc|) := by positivity
  have : (x - loc) / (2 * (1 + |x - loc|)) ≤ 1/2 := by
    rw [div_le_div_iff₀ hd (by norm_num)]
    nlinarith [le_abs_self (x - loc), abs_nonneg (x - loc)]
  linarith

theorem sigmoidCdf_mono (x y loc s : ℚ) (hxy : x ≤ y) :
    sigmoidCdf x loc s ≤ sigmoidCdf y loc s := by
  unfold sigmoidCdf
  have hds : (0:ℚ) < 2 * (1 + |x - loc|) := by positivity
  have hdt : (0:ℚ) < 2 * (1 + |y - loc|) := by positivity
  have key : (x - loc) / (2 * (1 + |x - loc|)) ≤ (y - loc) / (2 * (1 + |y - loc|)) := by
    rw [div_le_div_iff₀ hds hdt]
    set u := x - loc with hu
    set v := y - loc with hv
    have huv : u ≤ v := by
      rw [hu, hv]
      linarith
    rcases le_or_lt 0 u with hu0 | hu0 <;> rcases le_or_lt 0 v with hv0 | hv0
    · rw [abs_of_nonneg hu0, abs_of_nonneg hv0]
      nlinarith
    · linarith
    · rw [abs_of_nonpos (le_of_lt hu0), abs_of_nonneg hv0]
      nlinarith
    · rw [abs_of_nonpos (le_of_lt hu0), abs_of_nonpos (le_of_lt hv0)]
      nlinarith
  linarith

theorem sigmoidCdf_eq_half (x loc s : ℚ) (hs : sigmoidCdf x loc s = 1/2) : x = loc := by
  unfold sigmoidCdf at hs
  have hd : (2 * (1 + |x - loc|)) ≠ 0 := by positivity
  have hz : (x - loc) / (2 * (1 + |x - loc|)) = 0 := by linarith
  rcases div_eq_zero_iff.mp hz with h | h
  · linarith
  · exact absurd h hd

/-! ### Kelly lemmas -/

theorem kellyV6_zero_of_le (c : ℚ) (hc : c ≤ 1000/1909) : kellyV6 c = 0 := by
  unfold kellyV6
  split_ifs with h
  · rw [max_eq_left]
    have hnum : 0.909 * c - (1 - c) ≤ 0 := by linarith
    have h1 : (0.909 * c - (1 - c)) / 0.909 ≤ 0 := by
      apply div_nonpos_of_nonpos_of_nonneg hnum
      norm_num
    rw [KELLY_FRAC]
    nlinarith
  · rfl

theorem kellyV6_pos_form (c : ℚ) (hc : 1000/1909 ≤ c) :
    kellyV6 c = (0.909 * c - (1 - c)) / 0.909 * KELLY_FRAC := by
  unfold kellyV6
  rw [if_pos (by rw [MIN_COVER]; linarith), max_eq_right]
  have hnum : 0 ≤ 0.909 * c - (1 - c) := by linarith
  have h1 : 0 ≤ (0.909 * c - (1 - c)) / 0.909 := by positivity
  rw [KELLY_FRAC]
  positivity

theorem kellyV6_strictMono (c1 c2 : ℚ) (h1 : 1000/1909 ≤ c1) (h12 : c1 < c2) :
    kellyV6 c1 < kellyV6 c2 := by
  rw [kellyV6_pos_form c1 h1, kellyV6_pos_form c2 (by linarith)]
  rw [KELLY_FRAC]
  have : (0.909 * c1 - (1 - c1)) / 0.909 < (0.909 * c2 - (1 - c2)) / 0.909 := by
    apply div_lt_div_of_pos_right _ (by norm_num)
    linarith
  nlinarith

theorem kellyV7_zero_of_le (c m : ℚ) (hc : c ≤ 1000/1909) : kellyV7 c m = 0 := by
  unfold kellyV7
  split_ifs with h
  · rw [max_eq_left, zero_mul]
    have hnum : 0.909 * c - (1 - c) ≤ 0 := by linarith
    have h1 : (0.909 * c - (1 - c)) / 0.909 ≤ 0 := by
      apply div_nonpos_of_nonpos_of_nonneg hnum
      norm_num
    rw [KELLY_FRAC]
    nlinarith
  · rfl

theorem kellyV7_pos_form (c m : ℚ) (hc : 1000/1909 ≤ c) :
    kellyV7 c m = (0.909 * c - (1 - c)) / 0.909 * KELLY_FRAC * m := by
  unfold kellyV7
  rw [if_pos (by rw [MIN_COVER]; linarith), max_eq_right]
  have hnum : 0 ≤ 0.909 * c - (1 - c) := by linarith
  have h1 : 0 ≤ (0.909 * c - (1 - c)) / 0.909 := by positivity
  rw [KELLY_FRAC]
  positivity

theorem kellyV7_strictMono (c1 c2 m : ℚ) (hm : 0 < m) (h1 : 1000/1909 ≤ c1) (h12 : c1 < c2) :
    kellyV7 c1 m < kellyV7 c2 m := by
  rw [kellyV7_pos_form c1 m h1, kellyV7_pos_form c2 m (by linarith)]
  apply mul_lt_mul_of_pos_right _ hm
  rw [KELLY_FRAC]
  have : (0.909 * c1 - (1 - c1)) / 0.909 < (0.909 * c2 - (1 - c2)) / 0.909 := by
    apply div_lt_div_of_pos_right _ (by norm_num)
    linarith
  nlinarith

theorem kellyV7_nonneg (c m : ℚ) (hm : 0 ≤ m) : 0 ≤ kellyV7 c m := by
  unfold kellyV7
  split_ifs
  · exact mul_nonneg (le_max_left _ _) hm
  · exact le_refl 0

/-! ### Cover probability lemmas -/

theorem coverPrinciple (ncdf : ℚ → ℚ → ℚ → ℚ)
    (hmono : ∀ x y loc s, x ≤ y → ncdf x loc s ≤ ncdf y loc s)
    (hhalf : ∀ loc s, ncdf loc loc s = 1/2)
    (hn0 : ∀ x loc s, 0 ≤ ncdf x loc s)
    (hn1 : ∀ x loc s, ncdf x loc s ≤ 1)
    (hinj : ∀ x loc s, ncdf x loc s = 1/2 → x = loc)
    (M m : ℚ) :
    1/2 ≤ (if -M < m then 1 - ncdf (-m) (- -M) SPREAD_STD else ncdf (-m) (- -M) SPREAD_STD) ∧
    (if -M < m then 1 - ncdf (-m) (- -M) SPREAD_STD else ncdf (-m) (- -M) SPREAD_STD) ≤ 1 ∧
    ((if -M < m then 1 - ncdf (-m) (- -M) SPREAD_STD else ncdf (-m) (- -M) SPREAD_STD) = 1/2 ↔
      |m - -M| = 0) := by
  rw [neg_neg]
  by_cases hlt : -M < m
  · rw [if_pos hlt]
    have hle : ncdf (-m) M SPREAD_STD ≤ 1/2 := by
      calc ncdf (-m) M SPREAD_STD ≤ ncdf M M SPREAD_STD :=
            hmono _ _ _ _ (by linarith)
        _ = 1/2 := hhalf M SPREAD_STD
    refine ⟨by linarith, by have := hn0 (-m) M SPREAD_STD; linarith, ?_⟩
    constructor
    · intro hc
      have hceq : ncdf (-m) M SPREAD_STD = 1/2 := by linarith
      have := hinj _ _ _ hceq
      exfalso
      linarith
    · intro he
      have : m - -M = 0 := abs_eq_zero.mp he
      exfalso
      linarith
  · rw [if_neg hlt]
    push_neg at hlt
    have hge : 1/2 ≤ ncdf (-m) M SPREAD_STD := by
      calc (1/2 : ℚ) = ncdf M M SPREAD_STD := (hhalf M SPREAD_STD).symm
        _ ≤ ncdf (-m) M SPREAD_STD := hmono _ _ _ _ (by linarith)
    refine ⟨hge, hn1 _ _ _, ?_⟩
    constructor
    · intro hc
      have := hinj _ _ _ hc
      rw [abs_eq_zero]
      linarith
    · intro he
      have hm : m - -M = 0 := abs_eq_zero.mp he
      have : -m = M := by linarith
      rw [this]
      exact hhalf M SPREAD_STD

theorem predictCoreV6_cover_eq (ncdf : ℚ → ℚ → ℚ → ℚ) (cfg : CfgV6)
    (h a : TeamRating) (m : ℚ) (hne : h.team ≠ a.team) :
    (predictCoreV6 ncdf cfg h a m).cover =
      (if -(hMarginV6 cfg h a).1 < m
        then 1 - ncdf (-m) (- -(hMarginV6 cfg h a).1) SPREAD_STD
        else ncdf (-m) (- -(hMarginV6 cfg h a).1) SPREAD_STD) := by
  simp only [predictCoreV6]
  by_cases hlt : -(hMarginV6 cfg h a).1 < m
  · rw [if_pos hlt, if_pos hlt, if_pos rfl]
  · rw [if_neg hlt, if_neg hlt, if_neg (fun hc => hne hc.symm)]

theorem predictCoreV6_edge_eq (ncdf : ℚ → ℚ → ℚ → ℚ) (cfg : CfgV6)
    (h a : TeamRating) (m : ℚ) :
    (predictCoreV6 ncdf cfg h a m).edge = |m - -(hMarginV6 cfg h a).1| := rfl

theorem predictCoreV7_cover_eq (ncdf : ℚ → ℚ → ℚ → ℚ) (cfg : CfgV7)
    (h a : TeamRating) (hn an : String) (m : ℚ) (hr : ℤ) (B : ℚ)
    (hne : h.team ≠ a.team) :
    (predictCoreV7 ncdf cfg h a hn an m hr B).cover =
      (if -(hMarginV7 cfg h a hr).1 < m
        then 1 - ncdf (-m) (- -(hMarginV7 cfg h a hr).1) SPREAD_STD
        else ncdf (-m) (- -(hMarginV7 cfg h a hr).1) SPREAD_STD) := by
  simp only [predictCoreV7]
  by_cases hlt : -(hMarginV7 cfg h a hr).1 < m
  · rw [if_pos hlt, if_pos hlt, if_pos rfl]
  · rw [if_neg hlt, if_neg hlt, if_neg (fun hc => hne hc.symm)]

theorem predictCoreV7_edge_eq (ncdf : ℚ → ℚ → ℚ → ℚ) (cfg : CfgV7)
    (h a : TeamRating) (hn an : String) (m : ℚ) (hr : ℤ) (B : ℚ) :
    (predictCoreV7 ncdf cfg h a hn an m hr B).edge = |m - -(hMarginV7 cfg h a hr).1| := rfl

/-! ### V7 stake lemmas -/

theorem predictCoreV7_stake_eq (ncdf : ℚ → ℚ → ℚ → ℚ) (cfg : CfgV7)
    (h a : TeamRating) (hn an : String) (m : ℚ) (hr : ℤ) (B : ℚ) :
    (predictCoreV7 ncdf cfg h a hn an m hr B).stake =
      round5 (min (B * (predictCoreV7 ncdf cfg h a hn an m hr B).kelly)
        (min (B * 0.03) (B * 0.1))) := rfl

theorem predictCoreV7_kelly_nonneg (ncdf : ℚ → ℚ → ℚ → ℚ) (cfg : CfgV7)
    (h a : TeamRating) (hn an : String) (m : ℚ) (hr : ℤ) (B : ℚ) :
    0 ≤ (predictCoreV7 ncdf cfg h a hn an m hr B).kelly := by
  simp only [predictCoreV7]
  apply kellyV7_nonneg
  rcases cfg.tracker with _ | t
  · norm_num
  · rcases htv : t an hn with _ | mv
    · simp only [htv]
      norm_num
    · simp only [htv]
      split_ifs <;> norm_num

theorem predictCoreV7_stake_le (ncdf : ℚ → ℚ → ℚ → ℚ) (cfg : CfgV7)
    (h a : TeamRating) (hn an : String) (m : ℚ) (hr : ℤ) (B : ℚ) :
    (predictCoreV7 ncdf cfg h a hn an m hr B).stake ≤ B * 0.03 + 5/2 := by
  rw [predictCoreV7_stake_eq]
  have h1 := round5_le (min (B * (predictCoreV7 ncdf cfg h a hn an m hr B).kelly)
    (min (B * 0.03) (B * 0.1)))
  have h2 : min (B * (predictCoreV7 ncdf cfg h a hn an m hr B).kelly)
      (min (B * 0.03) (B * 0.1)) ≤ B * 0.03 :=
    le_trans (min_le_right _ _) (min_le_left _ _)
  linarith

theorem predictCoreV7_stake_nonneg (ncdf : ℚ → ℚ → ℚ → ℚ) (cfg : CfgV7)
    (h a : TeamRating) (hn an : String) (m : ℚ) (hr : ℤ) (B : ℚ) (hB : 0 ≤ B) :
    0 ≤ (predictCoreV7 ncdf cfg h a hn an m hr B).stake := by
  rw [predictCoreV7_stake_eq]
  apply round5_nonneg
  have hk := predictCoreV7_kelly_nonneg ncdf cfg h a hn an m hr B
  have h1 : 0 ≤ B * (predictCoreV7 ncdf cfg h a hn an m hr B).kelly := mul_nonneg hB hk
  have h2 : 0 ≤ B * (0.03:ℚ) := by positivity
  have h3 : 0 ≤ B * (0.1:ℚ) := by positivity
  exact le_min h1 (le_min h2 h3)

theorem predictCoreV7_stake_mul5 (ncdf : ℚ → ℚ → ℚ → ℚ) (cfg : CfgV7)
    (h a : TeamRating) (hn an : String) (m : ℚ) (hr : ℤ) (B : ℚ) :
    ∃ k : ℤ, (predictCoreV7 ncdf cfg h a hn an m hr B).stake = (k : ℚ) * 5 := by
  rw [predictCoreV7_stake_eq]
  exact round5_mul_int _

theorem mem_pipelineV7 (ncdf : ℚ → ℚ → ℚ → ℚ) (cfg : CfgV7)
    (store : List (String × TeamRating)) (B : ℚ) (games : List GameV7)
    (x : PredV7) (hx : x ∈ pipelineV7 ncdf cfg store B games) :
    ∃ h a hn an m hr, x = predictCoreV7 ncdf cfg h a hn an m hr B := by
  unfold pipelineV7 at hx
  rcases List.mem_filterMap.mp hx with ⟨g, _, hg⟩
  unfold predictV7 at hg
  rcases hh : getTeam store g.home with _ | ht <;> rw [hh] at hg
  · simp at hg
  · rcases ha : getTeam store g.away with _ | at_ <;> rw [ha] at hg
    · simp at hg
    · simp only [Option.some.injEq] at hg
      exact ⟨ht, at_, g.home, g.away, g.spread, g.game_hour_et, hg.symm⟩

/-! ### Concrete fixtures -/

/-- A qualifying v6 prediction with cover 0.65 whose kelly field is exactly
the v6 Kelly formula at that cover. -/
def predA : PredV6 :=
  { home := "TeamH", away := "TeamA", mkt := -6, mdl := -9, edge := 3,
    bet_team := "TeamH", bet_line := -6, cover := 13/20, kelly := 4817/121200,
    winner := "TeamH", margin := 9, factors := [] }

/-- A qualifying v6 prediction with cover 0.6184 whose kelly field is exactly
the v6 Kelly formula at that cover. -/
def predB : PredV6 :=
  { home := "TeamH", away := "TeamA", mkt := -6, mdl := -9, edge := 3,
    bet_team := "TeamH", bet_line := -6, cover := 773/1250,
    kelly := 225657/7575000,
    winner := "TeamH", margin := 9, factors := [] }

/-- A qualifying v6 prediction with cover 0.525 whose kelly field is exactly
the v6 Kelly formula at that cover; its stake rounds below 20. -/
def predC : PredV6 :=
  { home := "TeamH", away := "TeamA", mkt := -6, mdl := -9, edge := 3,
    bet_team := "TeamH", bet_line := -6, cover := 21/40, kelly := 89/242400,
    winner := "TeamH", margin := 9, factors := [] }

theorem predA_kelly_consistent : predA.kelly = kellyV6 predA.cover := by
  rw [kellyV6_pos_form predA.cover (by norm_num [predA])]
  norm_num [predA, KELLY_FRAC]

theorem predB_kelly_consistent : predB.kelly = kellyV6 predB.cover := by
  rw [kellyV6_pos_form predB.cover (by norm_num [predB])]
  norm_num [predB, KELLY_FRAC]

theorem predC_kelly_consistent : predC.kelly = kellyV6 predC.cover := by
  rw [kellyV6_pos_form predC.cover (by norm_num [predC])]
  norm_num [predC, KELLY_FRAC]

theorem qualifiesV6_predA : qualifiesV6 predA = true := by
  rw [qualifiesV6, decide_eq_true_eq]
  constructor
  · norm_num [predA, MIN_EDGE]
  · norm_num [predA, MIN_COVER]

theorem qualifiesV6_predB : qualifiesV6 predB = true := by
  rw [qualifiesV6, decide_eq_true_eq]
  constructor
  · norm_num [predB, MIN_EDGE]
  · norm_num [predB, MIN_COVER]

theorem qualifiesV6_predC : qualifiesV6 predC = true := by
  rw [qualifiesV6, decide_eq_true_eq]
  constructor
  · norm_num [predC, MIN_EDGE]
  · norm_num [predC, MIN_COVER]

theorem amtV6_predA_0 : amtV6 10030 0 predA = 300 := by
  unfold amtV6 predA
  have hmin : min ((10030:ℚ) * (4817/121200)) (min ((10030:ℚ) * 0.03) ((10030:ℚ) * 0.1 - 0)) = 3009/10 := by
    rw [min_def, min_def]
    norm_num
  rw [hmin]
  have := round5_eq_low (3009/10) 60 (by norm_num) (by norm_num)
  norm_num at this
  exact this

theorem amtV6_predA_300 : amtV6 10030 300 predA = 300 := by
  unfold amtV6 predA
  have hmin : min ((10030:ℚ) * (4817/121200)) (min ((10030:ℚ) * 0.03) ((10030:ℚ) * 0.1 - 300)) = 3009/10 := by
    rw [min_def, min_def]
    norm_num
  rw [hmin]
  have := round5_eq_low (3009/10) 60 (by norm_num) (by norm_num)
  norm_num at this
  exact this

theorem amtV6_predA_600 : amtV6 10030 600 predA = 300 := by
  unfold amtV6 predA
  have hmin : min ((10030:ℚ) * (4817/121200)) (min ((10030:ℚ) * 0.03) ((10030:ℚ) * 0.1 - 600)) = 3009/10 := by
    rw [min_def, min_def]
    norm_num
  rw [hmin]
  have := round5_eq_low (3009/10) 60 (by norm_num) (by norm_num)
  norm_num at this
  exact this

theorem amtV6_predA_900 : amtV6 10030 900 predA = 105 := by
  unfold amtV6 predA
  have hmin : min ((10030:ℚ) * (4817/121200)) (min ((10030:ℚ) * 0.03) ((10030:ℚ) * 0.1 - 900)) = 103 := by
    rw [min_def, min_def]
    norm_num
  rw [hmin]
  have := round5_eq_high 103 20 (by norm_num) (by norm_num)
  norm_num at this
  exact this

theorem stakesV6_predA_run :
    stakesV6 10030 [predA, predA, predA, predA] 0 =
      [(predA, 300), (predA, 300), (predA, 300), (predA, 105)] := by
  rw [stakesV6_cons, amtV6_predA_0, if_neg (by norm_num : ¬(300:ℚ) < 20),
    show (0:ℚ) + 300 = 300 from by norm_num]
  rw [stakesV6_cons, amtV6_predA_300, if_neg (by norm_num : ¬(300:ℚ) < 20),
    show (300:ℚ) + 300 = 600 from by norm_num]
  rw [stakesV6_cons, amtV6_predA_600, if_neg (by norm_num : ¬(300:ℚ) < 20),
    show (600:ℚ) + 300 = 900 from by norm_num]
  rw [stakesV6_cons, amtV6_predA_900, if_neg (by norm_num : ¬(105:ℚ) < 20)]
  rfl

theorem amtV6_predB_0 : amtV6 10000 0 predB = 300 := by
  unfold amtV6 predB
  have hmin : min ((10000:ℚ) * (225657/7575000)) (min ((10000:ℚ) * 0.03) ((10000:ℚ) * 0.1 - 0)) = 150438/505 := by
    rw [min_def, min_def]
    norm_num
  rw [hmin]
  have := round5_eq_high (150438/505) 59 (by norm_num) (by norm_num)
  norm_num at this
  exact this

theorem stakesV6_predB_run : stakesV6 10000 [predB] 0 = [(predB, 300)] := by
  rw [stakesV6_cons, amtV6_predB_0, if_neg (by norm_num : ¬(300:ℚ) < 20)]
  rfl

theorem amtV6_predC_0 : amtV6 10000 0 predC = 5 := by
  unfold amtV6 predC
  have hmin : min ((10000:ℚ) * (89/242400)) (min ((10000:ℚ) * 0.03) ((10000:ℚ) * 0.1 - 0)) = 2225/606 := by
    rw [min_def, min_def]
    norm_num
  rw [hmin]
  have := round5_eq_high (2225/606) 0 (by norm_num) (by norm_num)
  norm_num at this
  exact this

theorem stakesV6_predC_run : stakesV6 10000 [predC] 0 = [] := by
  rw [stakesV6_cons, amtV6_predC_0, if_pos (by norm_num : (5:ℚ) < 20)]
  rfl

theorem selectBetsV6_predC : selectBetsV6 [predC] = [predC] := by
  unfold selectBetsV6
  rw [show List.insertionSort (keyDesc PredV6.edge) [predC] = [predC] from rfl]
  rw [List.filter_cons_of_pos qualifiesV6_predC]
  rfl

/-! ## Claims -/

/-- C2 counterexample: with confidence multiplier fixed (v6 has none, i.e. 1),
the covers 0.521 and 0.522 both exceed the 0.52 floor, 0.521 < 0.522, yet the
computed Kelly fraction is 0 at both, so the Kelly fraction is not strictly
increasing in the cover probability above the 0.52 floor. -/
theorem kelly_not_strictMono_cx :
    MIN_COVER < 521/1000 ∧ (521/1000 : ℚ) < 522/1000 ∧
    kellyV6 (521/1000) = 0 ∧ kellyV6 (522/1000) = 0 ∧
    kellyV7 (521/1000) 1 = 0 ∧ kellyV7 (522/1000) 1 = 0 := by
  refine ⟨by rw [MIN_COVER]; norm_num, by norm_num,
    kellyV6_zero_of_le _ (by norm_num), kellyV6_zero_of_le _ (by norm_num),
    kellyV7_zero_of_le _ _ (by norm_num), kellyV7_zero_of_le _ _ (by norm_num)⟩

/-- C2 (amended): in both variants the computed Kelly fraction is 0 whenever
the cover probability is at most 1000/1909 (approx 0.5238) - in particular
whenever it is at most the 0.52 floor - and it is strictly increasing in the
cover probability on [1000/1909, 1) and beyond, holding the confidence
multiplier fixed and positive. -/
theorem kelly_zero_floor_and_strictMono :
    (∀ c : ℚ, c ≤ 1000/1909 → kellyV6 c = 0) ∧
    (∀ c : ℚ, c ≤ MIN_COVER → kellyV6 c = 0) ∧
    (∀ c1 c2 : ℚ, 1000/1909 ≤ c1 → c1 < c2 → kellyV6 c1 < kellyV6 c2) ∧
    (∀ c m : ℚ, 0 ≤ m → c ≤ 1000/1909 → kellyV7 c m = 0) ∧
    (∀ c1 c2 m : ℚ, 0 < m → 1000/1909 ≤ c1 → c1 < c2 → kellyV7 c1 m < kellyV7 c2 m) := by
  refine ⟨fun c hc => kellyV6_zero_of_le c hc,
    fun c hc => kellyV6_zero_of_le c (by rw [MIN_COVER] at hc; linarith),
    fun c1 c2 h1 h12 => kellyV6_strictMono c1 c2 h1 h12,
    fun c m _ hc => kellyV7_zero_of_le c m hc,
    fun c1 c2 m hm h1 h12 => kellyV7_strictMono c1 c2 m hm h1 h12⟩

/-- C2 witness: the amended theorem applied at concrete covers. -/
theorem kelly_zero_floor_and_strictMono_witness :
    kellyV6 (1/2) = 0 ∧ kellyV6 (1000/1909) < kellyV6 (7/10) ∧
    kellyV7 (1/2) 1 = 0 ∧ kellyV7 (1000/1909) 1 < kellyV7 (7/10) 1 :=
  ⟨kelly_zero_floor_and_strictMono.1 (1/2) (by norm_num),
   kelly_zero_floor_and_strictMono.2.2.1 (1000/1909) (7/10) (le_refl _) (by norm_num),
   kelly_zero_floor_and_strictMono.2.2.2.1 (1/2) 1 (by norm_num) (by norm_num),
   kelly_zero_floor_and_strictMono.2.2.2.2 (1000/1909) (7/10) 1 (by norm_num) (le_refl _) (by norm_num)⟩

/-- C3 counterexample: a bankroll of 10030 and four identical qualifying
predictions (cover 0.65, kelly exactly the v6 formula at that cover). The v6
staking loop places 300 + 300 + 300 + 105 = 1005, but the aggregate cap is
10030 * 0.1 = 1003: the half-to-even rounding of `round(amt/5)*5` rounds the
last remaining-cap amount 103 up to 105, exceeding the cap. -/
theorem aggregate_cap_exceeded_cx :
    ((stakesV6 10030 [predA, predA, predA, predA] 0).map Prod.snd).sum = 1005 ∧
    (10030 : ℚ) * 0.1 = 1003 ∧ (1003 : ℚ) < 1005 ∧
    (∀ x ∈ [predA, predA, predA, predA], qualifiesV6 x = true) ∧
    predA.kelly = kellyV6 predA.cover := by
  refine ⟨?_, by norm_num, by norm_num, ?_, predA_kelly_consistent⟩
  · rw [stakesV6_predA_run]
    norm_num
  · intro x hx
    have hx2 : x = predA := by simpa using hx
    rw [hx2]
    exact qualifiesV6_predA

/-- C3 (amended): the v6 running-total staking loop keeps the sum of placed
stakes within bankroll * 0.1 + 2.5 (half the rounding unit of 5); the v7
pipeline has no running aggregate deduction at all - each stake is capped
per bet, so the selected bets together are only bounded by
maxBets * (bankroll * 0.03 + 2.5). -/
theorem aggregate_exposure_bounds :
    (∀ B : ℚ, 0 ≤ B → ∀ bets : List PredV6, (∀ x ∈ bets, qualifiesV6 x = true) →
      ((stakesV6 B bets 0).map Prod.snd).sum ≤ B * 0.1 + 5/2) ∧
    (∀ (ncdf : ℚ → ℚ → ℚ → ℚ) (cfg : CfgV7) (store : List (String × TeamRating))
      (B : ℚ) (games : List GameV7), 0 ≤ B →
      ((selectBetsV7 (pipelineV7 ncdf cfg store B games)).map PredV7.stake).sum ≤
        5 * (B * 0.03 + 5/2)) := by
  constructor
  · intro B hB bets _
    have := stakesV6_sum_le B bets 0 (by linarith)
    linarith
  · intro ncdf cfg store B games hB
    have hc : (0:ℚ) ≤ B * 0.03 + 5/2 := by nlinarith
    have hbound : ∀ s ∈ (selectBetsV7 (pipelineV7 ncdf cfg store B games)).map PredV7.stake,
        s ≤ B * 0.03 + 5/2 := by
      intro s hs
      rcases List.mem_map.mp hs with ⟨x, hx, rfl⟩
      have hxp := (mem_selectBetsV7 _ _ hx).1
      rcases mem_pipelineV7 ncdf cfg store B games x hxp with ⟨h, a, hn, an, m, hr, rfl⟩
      exact predictCoreV7_stake_le ncdf cfg h a hn an m hr B
    have hsum := List.sum_le_card_nsmul _ _ hbound
    have hlen : ((selectBetsV7 (pipelineV7 ncdf cfg store B games)).map PredV7.stake).length ≤ 5 := by
      rw [List.length_map]
      unfold selectBetsV7 MAX_BETS
      exact List.length_take_le _ _
    calc ((selectBetsV7 (pipelineV7 ncdf cfg store B games)).map PredV7.stake).sum
        ≤ ((selectBetsV7 (pipelineV7 ncdf cfg store B games)).map PredV7.stake).length •
            (B * 0.03 + 5/2) := hsum
      _ = (((selectBetsV7 (pipelineV7 ncdf cfg store B games)).map PredV7.stake).length : ℚ) *
            (B * 0.03 + 5/2) := by rw [nsmul_eq_mul]
      _ ≤ 5 * (B * 0.03 + 5/2) := by
          apply mul_le_mul_of_nonneg_right _ hc
          exact_mod_cast hlen

/-- C3 witness: the amended bounds applied at a concrete bankroll, bet list,
configuration and game feed. -/
theorem aggregate_exposure_bounds_witness :
    ((stakesV6 10 [] 0).map Prod.snd).sum ≤ 10 * 0.1 + 5/2 ∧
    ((selectBetsV7 (pipelineV7 stepCdf cfg0V7 [] 10 [])).map PredV7.stake).sum ≤
      5 * (10 * 0.03 + 5/2) :=
  ⟨aggregate_exposure_bounds.1 10 (by norm_num) [] (by simp),
   aggregate_exposure_bounds.2 stepCdf cfg0V7 [] 10 [] (by norm_num)⟩

/-- C4 counterexample: bankroll 10000 and a qualifying prediction whose
pre-rounding amount is min(kelly stake, caps) = 150438/505 (about 297.9).
Rounding DOWN to the nearest unit of 5 would give 5 * floor(amt/5) = 295, but
the code rounds to the NEAREST multiple of 5 and stakes 300. -/
theorem stake_rounds_to_nearest_cx :
    stakesV6 10000 [predB] 0 = [(predB, 300)] ∧
    ⌊(min ((10000:ℚ) * predB.kelly) (min ((10000:ℚ) * 0.03) ((10000:ℚ) * 0.1 - 0))) / 5⌋ = 59 ∧
    (5:ℚ) * 59 = 295 ∧ (295:ℚ) ≠ 300 ∧
    qualifiesV6 predB = true ∧ predB.kelly = kellyV6 predB.cover := by
  refine ⟨stakesV6_predB_run, ?_, by norm_num, by norm_num, qualifiesV6_predB,
    predB_kelly_consistent⟩
  have hmin : min ((10000:ℚ) * predB.kelly) (min ((10000:ℚ) * 0.03) ((10000:ℚ) * 0.1 - 0)) = 150438/505 := by
    rw [min_def, min_def]
    norm_num [predB]
  rw [hmin, Int.floor_eq_iff]
  constructor
  · norm_num
  · norm_num

/-- C4 (amended): every stake is the minimum of bankroll * kelly, the per-bet
cap 0.03 * bankroll and (in v6) the remaining aggregate headroom, rounded to
the NEAREST multiple of 5 (half to even); consequently every placed stake is
a multiple of 5, is at least 20 in the v6 loop (nonnegative in v7 for a
nonnegative bankroll), and exceeds the per-bet cap by at most 2.5. -/
theorem stake_shape_bounds :
    (∀ (B : ℚ) (bets : List PredV6) (total : ℚ) (b : PredV6) (amt : ℚ),
      (b, amt) ∈ stakesV6 B bets total →
        (∃ k : ℤ, amt = (k : ℚ) * 5) ∧ 20 ≤ amt ∧ amt ≤ B * 0.03 + 5/2) ∧
    (∀ (ncdf : ℚ → ℚ → ℚ → ℚ) (cfg : CfgV7) (h a : TeamRating) (hn an : String)
      (m : ℚ) (hr : ℤ) (B : ℚ), 0 ≤ B →
        (∃ k : ℤ, (predictCoreV7 ncdf cfg h a hn an m hr B).stake = (k : ℚ) * 5) ∧
        0 ≤ (predictCoreV7 ncdf cfg h a hn an m hr B).stake ∧
        (predictCoreV7 ncdf cfg h a hn an m hr B).stake ≤ B * 0.03 + 5/2) := by
  constructor
  · intro B bets total b amt hmem
    have hm := stakesV6_mem B bets total b amt hmem
    exact ⟨hm.2.2, hm.1, hm.2.1⟩
  · intro ncdf cfg h a hn an m hr B hB
    exact ⟨predictCoreV7_stake_mul5 ncdf cfg h a hn an m hr B,
      predictCoreV7_stake_nonneg ncdf cfg h a hn an m hr B hB,
      predictCoreV7_stake_le ncdf cfg h a hn an m hr B⟩

/-- C4 witness: the amended stake-shape facts applied to the concrete stake
300 placed for predB at bankroll 10000 and to a concrete v7 prediction. -/
theorem stake_shape_bounds_witness :
    ((∃ k : ℤ, (300:ℚ) = (k : ℚ) * 5) ∧ 20 ≤ (300:ℚ) ∧ (300:ℚ) ≤ 10000 * 0.03 + 5/2) ∧
    ((∃ k : ℤ, (predictCoreV7 stepCdf cfg0V7 ⟨"T1", 1, "ACC", 100, 100, 70⟩
        ⟨"T2", 2, "ACC", 100, 100, 70⟩ "T1" "T2" (-3) 19 10000).stake = (k : ℚ) * 5) ∧
      0 ≤ (predictCoreV7 stepCdf cfg0V7 ⟨"T1", 1, "ACC", 100, 100, 70⟩
        ⟨"T2", 2, "ACC", 100, 100, 70⟩ "T1" "T2" (-3) 19 10000).stake ∧
      (predictCoreV7 stepCdf cfg0V7 ⟨"T1", 1, "ACC", 100, 100, 70⟩
        ⟨"T2", 2, "ACC", 100, 100, 70⟩ "T1" "T2" (-3) 19 10000).stake ≤ 10000 * 0.03 + 5/2) :=
  ⟨stake_shape_bounds.1 10000 [predB] 0 predB 300 (by rw [stakesV6_predB_run]; simp),
   stake_shape_bounds.2 stepCdf cfg0V7 ⟨"T1", 1, "ACC", 100, 100, 70⟩
     ⟨"T2", 2, "ACC", 100, 100, 70⟩ "T1" "T2" (-3) 19 10000 (by norm_num)⟩

/-- C7 counterexample: predC qualifies on edge and cover but its rounded
stake is 5 < 20. In v6 it is still selected into the final bet list (it is
counted among the selected bets and occupies one of the 5 slots) even though
the staking loop skips it and places no stake. -/
theorem min_stake_not_excluded_v6_cx :
    selectBetsV6 [predC] = [predC] ∧
    stakesV6 10000 [predC] 0 = [] ∧
    amtV6 10000 0 predC = 5 ∧ (5:ℚ) < 20 ∧
    qualifiesV6 predC = true ∧ predC.kelly = kellyV6 predC.cover :=
  ⟨selectBetsV6_predC, stakesV6_predC_run, amtV6_predC_0, by norm_num,
   qualifiesV6_predC, predC_kelly_consistent⟩

/-- A qualifying v7 prediction (edge 3, cover 0.65, stake 300). -/
def predV7q : PredV7 :=
  { home := "TeamH", away := "TeamA", home_rank := 1, away_rank := 2,
    mkt := -6, mdl := -9, edge := 3, bet_team := "TeamH", bet_line := -6,
    cover := 13/20, kelly := 4817/121200, stake := 300, winner := "TeamH",
    margin := 9, factors := [] }

theorem qualifiesV7_predV7q : qualifiesV7 predV7q = true := by
  rw [qualifiesV7, decide_eq_true_eq]
  refine ⟨?_, ?_, ?_⟩
  · norm_num [predV7q, MIN_EDGE]
  · norm_num [predV7q, MIN_COVER]
  · norm_num [predV7q]

theorem selectBetsV7_predV7q : selectBetsV7 [predV7q] = [predV7q] := by
  unfold selectBetsV7
  rw [show List.insertionSort (keyDesc PredV7.edge) [predV7q] = [predV7q] from rfl]
  rw [List.filter_cons_of_pos qualifiesV7_predV7q]
  rfl

/-- C7 (amended): no stake below the minimum actionable size 20 is ever
placed in either variant. In v7 a prediction with stake below 20 is excluded
from the final bet list by the selection filter; in v6 the staking loop skips
it (no stake is placed), but - as the counterexample shows - it still
occupies a slot of the selected bet list. -/
theorem min_stake_exclusion :
    (∀ (preds : List PredV7) (x : PredV7), x ∈ selectBetsV7 preds → 20 ≤ x.stake) ∧
    (∀ (B : ℚ) (bets : List PredV6) (total : ℚ) (b : PredV6) (amt : ℚ),
      (b, amt) ∈ stakesV6 B bets total → 20 ≤ amt) := by
  constructor
  · intro preds x hx
    have hq := (mem_selectBetsV7 preds x hx).2
    rw [qualifiesV7, decide_eq_true_eq] at hq
    exact hq.2.2
  · intro B bets total b amt hmem
    exact (stakesV6_mem B bets total b amt hmem).1

/-- C7 witness: the amended exclusion facts applied at the concrete selected
prediction predV7q and the concrete placed stake of predB. -/
theorem min_stake_exclusion_witness :
    20 ≤ predV7q.stake ∧ 20 ≤ (300:ℚ) :=
  ⟨min_stake_exclusion.1 [predV7q] predV7q (by rw [selectBetsV7_predV7q]; simp),
   min_stake_exclusion.2 10000 [predB] 0 predB 300 (by rw [stakesV6_predB_run]; simp)⟩

/-- C5 (confirmed): in both variants the final bet list has at most
MAX_BETS = 5 entries; every entry satisfies edge >= MIN_EDGE = 2 and
cover >= MIN_COVER = 0.52; the list is sorted by descending edge; and for
every edge value the equal-edge entries appear as a sublist of the input
predictions in input (line-ingestion) order - the embedded sort is stable. -/
theorem selector_spec :
    (∀ preds : List PredV6,
      (selectBetsV6 preds).length ≤ 5 ∧
      (∀ x ∈ selectBetsV6 preds, MIN_EDGE ≤ x.edge ∧ MIN_COVER ≤ x.cover) ∧
      List.Sorted (keyDesc PredV6.edge) (selectBetsV6 preds) ∧
      (∀ e : ℚ, List.Sublist ((selectBetsV6 preds).filter (fun x => decide (x.edge = e)))
        (preds.filter (fun x => decide (x.edge = e))))) ∧
    (∀ preds : List PredV7,
      (selectBetsV7 preds).length ≤ 5 ∧
      (∀ x ∈ selectBetsV7 preds, MIN_EDGE ≤ x.edge ∧ MIN_COVER ≤ x.cover) ∧
      List.Sorted (keyDesc PredV7.edge) (selectBetsV7 preds) ∧
      (∀ e : ℚ, List.Sublist ((selectBetsV7 preds).filter (fun x => decide (x.edge = e)))
        (preds.filter (fun x => decide (x.edge = e))))) := by
  constructor
  · intro preds
    refine ⟨?_, ?_, ?_, ?_⟩
    · unfold selectBetsV6 MAX_BETS
      exact List.length_take_le _ _
    · intro x hx
      have hq := (mem_selectBetsV6 preds x hx).2
      rw [qualifiesV6, decide_eq_true_eq] at hq
      exact hq
    · have hs := List.sorted_insertionSort (keyDesc PredV6.edge) preds
      have hsub : List.Sublist (selectBetsV6 preds) (List.insertionSort (keyDesc PredV6.edge) preds) :=
        List.Sublist.trans (List.take_sublist _ _) (List.filter_sublist _)
      exact List.Pairwise.sublist hsub hs
    · intro e
      have h1 : List.Sublist ((selectBetsV6 preds).filter (fun x => decide (x.edge = e)))
          (((List.insertionSort (keyDesc PredV6.edge) preds).filter qualifiesV6).filter
            (fun x => decide (x.edge = e))) :=
        List.Sublist.filter _ (List.take_sublist _ _)
      have h2 : List.Sublist (((List.insertionSort (keyDesc PredV6.edge) preds).filter qualifiesV6).filter
          (fun x => decide (x.edge = e)))
          ((List.insertionSort (keyDesc PredV6.edge) preds).filter
            (fun x => decide (x.edge = e))) :=
        List.Sublist.filter _ (List.filter_sublist _)
      have h3 := filterKey_insertionSort PredV6.edge e preds
      rw [h3] at h2
      exact List.Sublist.trans h1 h2
  · intro preds
    refine ⟨?_, ?_, ?_, ?_⟩
    · unfold selectBetsV7 MAX_BETS
      exact List.length_take_le _ _
    · intro x hx
      have hq := (mem_selectBetsV7 preds x hx).2
      rw [qualifiesV7, decide_eq_true_eq] at hq
      exact ⟨hq.1, hq.2.1⟩
    · have hs := List.sorted_insertionSort (keyDesc PredV7.edge) preds
      have hsub : List.Sublist (selectBetsV7 preds) (List.insertionSort (keyDesc PredV7.edge) preds) :=
        List.Sublist.trans (List.take_sublist _ _) (List.filter_sublist _)
      exact List.Pairwise.sublist hsub hs
    · intro e
      have h1 : List.Sublist ((selectBetsV7 preds).filter (fun x => decide (x.edge = e)))
          (((List.insertionSort (keyDesc PredV7.edge) preds).filter qualifiesV7).filter
            (fun x => decide (x.edge = e))) :=
        List.Sublist.filter _ (List.take_sublist _ _)
      have h2 : List.Sublist (((List.insertionSort (keyDesc PredV7.edge) preds).filter qualifiesV7).filter
          (fun x => decide (x.edge = e)))
          ((List.insertionSort (keyDesc PredV7.edge) preds).filter
            (fun x => decide (x.edge = e))) :=
        List.Sublist.filter _ (List.filter_sublist _)
      have h3 := filterKey_insertionSort PredV7.edge e preds
      rw [h3] at h2
      exact List.Sublist.trans h1 h2

/-- C5 witness: the selector facts applied to concrete singleton inputs. -/
theorem selector_spec_witness :
    (selectBetsV6 [predC]).length ≤ 5 ∧
    (MIN_EDGE ≤ predC.edge ∧ MIN_COVER ≤ predC.cover) ∧
    (MIN_EDGE ≤ predV7q.edge ∧ MIN_COVER ≤ predV7q.cover) :=
  ⟨(selector_spec.1 [predC]).1,
   (selector_spec.1 [predC]).2.1 predC (by rw [selectBetsV6_predC]; simp),
   (selector_spec.2 [predV7q]).2.1 predV7q (by rw [selectBetsV7_predV7q]; simp)⟩

/-- Two equally rated B12 teams used to probe the swap symmetry law. -/
def teamX : TeamRating := ⟨"Xavier", 10, "B12", 100, 100, 135/2⟩

/-- Second equally rated B12 team. -/
def teamY : TeamRating := ⟨"Yale", 20, "B12", 100, 100, 135/2⟩

/-- An elite-venue home team (Duke, conference ACC). -/
def duke : TeamRating := ⟨"Duke", 1, "ACC", 100, 100, 135/2⟩

/-- A non-elite opponent in the same conference. -/
def elon : TeamRating := ⟨"Elon", 50, "ACC", 100, 100, 135/2⟩

/-- A concrete rating store holding Duke and Elon under lower-cased keys. -/
def dukeStore : List (String × TeamRating) := [("duke", duke), ("elon", elon)]

theorem baseXY : baselineMargin teamX teamY = 4 := by
  simp only [baselineMargin, show confHCA teamX.conf = 4.0 from rfl]
  norm_num [teamX, teamY]

theorem baseYX : baselineMargin teamY teamX = 4 := by
  simp only [baselineMargin, show confHCA teamY.conf = 4.0 from rfl]
  norm_num [teamX, teamY]

theorem hmXY : (hMarginV6 cfg0V6 teamX teamY).1 = 4 := by
  simp only [hMarginV6, cfg0V6, show List.lookup teamX.team ELITE_VENUES = none from rfl, baseXY]
  norm_num

theorem hmYX : (hMarginV6 cfg0V6 teamY teamX).1 = 4 := by
  simp only [hMarginV6, cfg0V6, show List.lookup teamY.team ELITE_VENUES = none from rfl, baseYX]
  norm_num

theorem baseDE : baselineMargin duke elon = 19/5 := by
  simp only [baselineMargin, show confHCA duke.conf = 3.8 from rfl]
  norm_num [duke, elon]

theorem baseDD : baselineMargin duke duke = 19/5 := by
  simp only [baselineMargin, show confHCA duke.conf = 3.8 from rfl]
  norm_num [duke]

theorem hmDD : (hMarginV6 cfg0V6 duke duke).1 = 5 := by
  simp only [hMarginV6, cfg0V6, show List.lookup duke.team ELITE_VENUES = some 1.2 from rfl, baseDD]
  norm_num

/-- C1 (confirmed): whenever both teams are found, the cover probability of
the produced Prediction is the Gaussian tail probability with mean equal to
the predicted home margin -modelSpread = -p.mdl and standard deviation
SPREAD_STD = 11, evaluated at the market threshold -marketSpread = -p.mkt:
the upper tail 1 - cdf when the recommended side is the home team, and the
lower tail cdf when it is the away team. Both variants. -/
theorem cover_is_gaussian_tail :
    (∀ (ncdf : ℚ → ℚ → ℚ → ℚ) (cfg : CfgV6) (store : List (String × TeamRating))
      (hn an : String) (m : ℚ) (p : PredV6),
      predictV6 ncdf cfg store hn an m = some p →
        p.cover = (if p.bet_team = p.home
          then 1 - ncdf (-p.mkt) (-p.mdl) SPREAD_STD
          else ncdf (-p.mkt) (-p.mdl) SPREAD_STD)) ∧
    (∀ (ncdf : ℚ → ℚ → ℚ → ℚ) (cfg : CfgV7) (store : List (String × TeamRating))
      (hn an : String) (m : ℚ) (hr : ℤ) (B : ℚ) (p : PredV7),
      predictV7 ncdf cfg store hn an m hr B = some p →
        p.cover = (if p.bet_team = p.home
          then 1 - ncdf (-p.mkt) (-p.mdl) SPREAD_STD
          else ncdf (-p.mkt) (-p.mdl) SPREAD_STD)) := by
  constructor
  · intro ncdf cfg store hn an m p hp
    unfold predictV6 at hp
    rcases hh : getTeam store hn with _ | ht <;> rw [hh] at hp
    · simp at hp
    · rcases ha : getTeam store an with _ | ta <;> rw [ha] at hp
      · simp at hp
      · simp only [Option.some.injEq] at hp
        subst hp
        rfl
  · intro ncdf cfg store hn an m hr B p hp
    unfold predictV7 at hp
    rcases hh : getTeam store hn with _ | ht <;> rw [hh] at hp
    · simp at hp
    · rcases ha : getTeam store an with _ | ta <;> rw [ha] at hp
      · simp at hp
      · simp only [Option.some.injEq] at hp
        subst hp
        rfl

/-- C1 witness: the tail-probability law applied to the concrete matchup
Duke at home against Elon resolved from the concrete store. -/
theorem cover_is_gaussian_tail_witness :
    (predictCoreV6 stepCdf cfg0V6 duke elon (-3)).cover =
      (if (predictCoreV6 stepCdf cfg0V6 duke elon (-3)).bet_team =
          (predictCoreV6 stepCdf cfg0V6 duke elon (-3)).home
        then 1 - stepCdf (-(predictCoreV6 stepCdf cfg0V6 duke elon (-3)).mkt)
          (-(predictCoreV6 stepCdf cfg0V6 duke elon (-3)).mdl) SPREAD_STD
        else stepCdf (-(predictCoreV6 stepCdf cfg0V6 duke elon (-3)).mkt)
          (-(predictCoreV6 stepCdf cfg0V6 duke elon (-3)).mdl) SPREAD_STD) :=
  cover_is_gaussian_tail.1 stepCdf cfg0V6 dukeStore "Duke" "Elon" (-3)
    (predictCoreV6 stepCdf cfg0V6 duke elon (-3)) rfl

/-- C6 (confirmed): if either the home or the away team name is not found in
the store (lookup after lower-casing and stripping), predict returns no
Prediction (the value none, not an exception), and the pipeline over a feed
containing that matchup equals the pipeline with the matchup removed - the
rest of the run is unaffected. Both variants. -/
theorem missing_team_skipped :
    ∀ (store : List (String × TeamRating)) (hn an : String),
      (getTeam store hn = none ∨ getTeam store an = none) →
      (∀ (ncdf : ℚ → ℚ → ℚ → ℚ) (cfg : CfgV6) (m : ℚ),
        predictV6 ncdf cfg store hn an m = none) ∧
      (∀ (ncdf : ℚ → ℚ → ℚ → ℚ) (cfg : CfgV6) (m : ℚ) (gs : List GameV6),
        pipelineV6 ncdf cfg store (⟨hn, an, m⟩ :: gs) = pipelineV6 ncdf cfg store gs) ∧
      (∀ (ncdf : ℚ → ℚ → ℚ → ℚ) (cfg : CfgV7) (m : ℚ) (hr : ℤ) (B : ℚ),
        predictV7 ncdf cfg store hn an m hr B = none) ∧
      (∀ (ncdf : ℚ → ℚ → ℚ → ℚ) (cfg : CfgV7) (m : ℚ) (hr : ℤ) (B : ℚ) (gs : List GameV7),
        pipelineV7 ncdf cfg store B (⟨hn, an, m, hr⟩ :: gs) = pipelineV7 ncdf cfg store B gs) := by
  intro store hn an hor
  have h6 : ∀ (ncdf : ℚ → ℚ → ℚ → ℚ) (cfg : CfgV6) (m : ℚ),
      predictV6 ncdf cfg store hn an m = none := by
    intro ncdf cfg m
    unfold predictV6
    rcases hor with hth | hta
    · rw [hth]
    · rcases hh : getTeam store hn with _ | t
      · rfl
      · rw [hta]
  have h7 : ∀ (ncdf : ℚ → ℚ → ℚ → ℚ) (cfg : CfgV7) (m : ℚ) (hr : ℤ) (B : ℚ),
      predictV7 ncdf cfg store hn an m hr B = none := by
    intro ncdf cfg m hr B
    unfold predictV7
    rcases hor with hth | hta
    · rw [hth]
    · rcases hh : getTeam store hn with _ | t
      · rfl
      · rw [hta]
  refine ⟨h6, ?_, h7, ?_⟩
  · intro ncdf cfg m gs
    unfold pipelineV6
    rw [List.filterMap_cons]
    simp [h6 ncdf cfg m]
  · intro ncdf cfg m hr B gs
    unfold pipelineV7
    rw [List.filterMap_cons]
    simp [h7 ncdf cfg m hr B]

/-- C6 witness: Gonzaga is absent from the concrete store, so the concrete
matchup is skipped and the concrete pipeline ignores it. -/
theorem missing_team_skipped_witness :
    predictV6 stepCdf cfg0V6 dukeStore "Duke" "Gonzaga" (-3) = none ∧
    pipelineV6 stepCdf cfg0V6 dukeStore [⟨"Duke", "Gonzaga", -3⟩] =
      pipelineV6 stepCdf cfg0V6 dukeStore [] :=
  ⟨(missing_team_skipped dukeStore "Duke" "Gonzaga" (Or.inr rfl)).1 stepCdf cfg0V6 (-3),
   (missing_team_skipped dukeStore "Duke" "Gonzaga" (Or.inr rfl)).2.1 stepCdf cfg0V6 (-3) []⟩

/-- C8 counterexample: Xavier and Yale with identical ratings in the same
conference (B12, HCA 4). Home Xavier at market spread -6 gives edge 2; the
swapped call (home Yale, market spread +6) gives edge 10, because the
home-court advantage attaches to whichever side is at home. The recommended
team is Yale in both calls, but the edges differ by 8 - far beyond any
floating-point tolerance - so swapping home/away and negating the market
spread does not preserve the edge. -/
theorem swap_symmetry_cx :
    (predictCoreV6 stepCdf cfg0V6 teamX teamY (-6)).edge = 2 ∧
    (predictCoreV6 stepCdf cfg0V6 teamY teamX 6).edge = 10 ∧
    (2 : ℚ) ≠ 10 ∧
    (predictCoreV6 stepCdf cfg0V6 teamX teamY (-6)).bet_team = "Yale" ∧
    (predictCoreV6 stepCdf cfg0V6 teamY teamX 6).bet_team = "Yale" := by
  refine ⟨?_, ?_, by norm_num, ?_, ?_⟩
  · simp only [predictCoreV6, hmXY]
    norm_num
  · simp only [predictCoreV6, hmYX]
    norm_num
  · simp only [predictCoreV6, hmXY]
    norm_num [show teamY.team = "Yale" from rfl]
  · simp only [predictCoreV6, hmYX]
    norm_num [show teamY.team = "Yale" from rfl]

/-- C8 (amended): the baseline rating differential is antisymmetric under the
swap, but the full model margin is not: with no providers configured, the two
margins of a matchup and its swap sum exactly to the home-court advantages of
the two conferences plus the elite-venue bonuses of the two teams, so
swapping home/away and negating the market spread preserves neither the edge
nor, in general, the recommended side. Both variants. -/
theorem swap_margin_sum_law :
    ∀ (h a : TeamRating) (hr : ℤ),
      (hMarginV6 cfg0V6 h a).1 + (hMarginV6 cfg0V6 a h).1 =
        confHCA h.conf + confHCA a.conf + eliteBonus h.team + eliteBonus a.team ∧
      (hMarginV7 cfg0V7 h a hr).1 + (hMarginV7 cfg0V7 a h hr).1 =
        confHCA h.conf + confHCA a.conf + eliteBonus h.team + eliteBonus a.team := by
  intro h a hr
  constructor
  · unfold hMarginV6 cfg0V6 baselineMargin eliteBonus
    rcases hl : List.lookup h.team ELITE_VENUES with _ | b <;>
      rcases hl2 : List.lookup a.team ELITE_VENUES with _ | c <;>
        simp [hl, hl2, Option.getD] <;> ring
  · unfold hMarginV7 cfg0V7 baselineMargin eliteBonus
    rcases hl : List.lookup h.team ELITE_VENUES with _ | b <;>
      rcases hl2 : List.lookup a.team ELITE_VENUES with _ | c <;>
        simp [hl, hl2, Option.getD] <;> ring

/-- C9 counterexample: Duke is in the elite-venue table with bonus 1.2 and
the v6 margin includes the bonus, but the v6 Prediction carries no factor
recording it - its factor list is empty - so the bonus is applied without
emitting a factor string in v6. -/
theorem elite_venue_no_factor_v6_cx :
    List.lookup duke.team ELITE_VENUES = some 1.2 ∧
    (hMarginV6 cfg0V6 duke elon).1 = baselineMargin duke elon + 1.2 ∧
    (predictCoreV6 stepCdf cfg0V6 duke elon (-3)).factors = [] := by
  refine ⟨rfl, ?_, ?_⟩
  · simp only [hMarginV6, cfg0V6, show List.lookup duke.team ELITE_VENUES = some 1.2 from rfl]
    norm_num
  · simp only [predictCoreV6, hMarginV6, cfg0V6,
      show List.lookup duke.team ELITE_VENUES = some 1.2 from rfl]
    simp

/-- C9 (amended): with no providers configured, an elite-venue home team gets
the fixed bonus added to the margin in both variants, but only v7 appends the
recording factor; v6 emits no factor at all. A home team outside the table
gets no bonus and no factor in either variant. -/
theorem elite_venue_bonus_behavior :
    ∀ (h a : TeamRating) (hr : ℤ) (b : ℚ),
      (List.lookup h.team ELITE_VENUES = some b →
        (hMarginV6 cfg0V6 h a).1 = baselineMargin h a + b ∧
        (hMarginV6 cfg0V6 h a).2 = [] ∧
        (hMarginV7 cfg0V7 h a hr).1 = baselineMargin h a + b ∧
        (hMarginV7 cfg0V7 h a hr).2 = [Factor.eliteVenue b]) ∧
      (List.lookup h.team ELITE_VENUES = none →
        (hMarginV6 cfg0V6 h a).1 = baselineMargin h a ∧
        (hMarginV6 cfg0V6 h a).2 = [] ∧
        (hMarginV7 cfg0V7 h a hr).1 = baselineMargin h a ∧
        (hMarginV7 cfg0V7 h a hr).2 = []) := by
  intro h a hr b
  constructor
  · intro hl
    refine ⟨?_, ?_, ?_, ?_⟩ <;>
      simp [hMarginV6, hMarginV7, cfg0V6, cfg0V7, hl]
  · intro hl
    refine ⟨?_, ?_, ?_, ?_⟩ <;>
      simp [hMarginV6, hMarginV7, cfg0V6, cfg0V7, hl]

/-- C9 witness: the venue behavior applied at Duke (in the table, bonus 1.2)
against Elon, and at Elon as home team (not in the table). -/
theorem elite_venue_bonus_behavior_witness :
    ((hMarginV6 cfg0V6 duke elon).1 = baselineMargin duke elon + 1.2 ∧
      (hMarginV6 cfg0V6 duke elon).2 = [] ∧
      (hMarginV7 cfg0V7 duke elon 19).1 = baselineMargin duke elon + 1.2 ∧
      (hMarginV7 cfg0V7 duke elon 19).2 = [Factor.eliteVenue 1.2]) ∧
    ((hMarginV6 cfg0V6 elon duke).1 = baselineMargin elon duke ∧
      (hMarginV6 cfg0V6 elon duke).2 = [] ∧
      (hMarginV7 cfg0V7 elon duke 19).1 = baselineMargin elon duke ∧
      (hMarginV7 cfg0V7 elon duke 19).2 = []) :=
  ⟨(elite_venue_bonus_behavior duke elon 19 1.2).1 rfl,
   (elite_venue_bonus_behavior elon duke 19 1.2).2 rfl⟩

/-- C10 counterexample: when the same store record resolves both sides of a
matchup (here Duke against Duke, reachable from two spellings of one name),
the recommended side can be the away branch while the bet_team string still
equals the home name, and the cover probability drops below one half: with
the strictly increasing distribution function sigmoidCdf the produced
Prediction has cover 1/4 < 1/2. -/
theorem cover_below_half_cx :
    (predictCoreV6 sigmoidCdf cfg0V6 duke duke (-6)).cover = 1/4 ∧
    (1/4 : ℚ) < 1/2 := by
  constructor
  · simp only [predictCoreV6, hmDD, ite_self, if_true, eq_self_iff_true, sigmoidCdf, SPREAD_STD]
    norm_num
  · norm_num

/-- C10 (amended): for every matchup whose two resolved team names differ,
and every distribution-like cdf (monotone in its argument, one half exactly
at its mean, valued in the unit interval), the cover probability of the
produced Prediction lies in [1/2, 1], and it equals 1/2 exactly when the
edge is 0. Both variants. -/
theorem cover_in_half_one :
    ∀ (ncdf : ℚ → ℚ → ℚ → ℚ),
      (∀ x y loc s : ℚ, x ≤ y → ncdf x loc s ≤ ncdf y loc s) →
      (∀ loc s : ℚ, ncdf loc loc s = 1/2) →
      (∀ x loc s : ℚ, 0 ≤ ncdf x loc s) →
      (∀ x loc s : ℚ, ncdf x loc s ≤ 1) →
      (∀ x loc s : ℚ, ncdf x loc s = 1/2 → x = loc) →
      ∀ (cfg6 : CfgV6) (cfg7 : CfgV7) (h a : TeamRating) (hn an : String)
        (m : ℚ) (hr : ℤ) (B : ℚ), h.team ≠ a.team →
        (1/2 ≤ (predictCoreV6 ncdf cfg6 h a m).cover ∧
          (predictCoreV6 ncdf cfg6 h a m).cover ≤ 1 ∧
          ((predictCoreV6 ncdf cfg6 h a m).cover = 1/2 ↔
            (predictCoreV6 ncdf cfg6 h a m).edge = 0)) ∧
        (1/2 ≤ (predictCoreV7 ncdf cfg7 h a hn an m hr B).cover ∧
          (predictCoreV7 ncdf cfg7 h a hn an m hr B).cover ≤ 1 ∧
          ((predictCoreV7 ncdf cfg7 h a hn an m hr B).cover = 1/2 ↔
            (predictCoreV7 ncdf cfg7 h a hn an m hr B).edge = 0)) := by
  intro ncdf hmono hhalf hn0 hn1 hinj cfg6 cfg7 h a hn an m hr B hne
  constructor
  · rw [predictCoreV6_cover_eq ncdf cfg6 h a m hne, predictCoreV6_edge_eq ncdf cfg6 h a m]
    exact coverPrinciple ncdf hmono hhalf hn0 hn1 hinj (hMarginV6 cfg6 h a).1 m
  · rw [predictCoreV7_cover_eq ncdf cfg7 h a hn an m hr B hne,
      predictCoreV7_edge_eq ncdf cfg7 h a hn an m hr B]
    exact coverPrinciple ncdf hmono hhalf hn0 hn1 hinj (hMarginV7 cfg7 h a hr).1 m

/-- C10 witness: the amended cover bounds applied with sigmoidCdf to the
concrete distinct-team matchup Duke against Elon. -/
theorem cover_in_half_one_witness :
    1/2 ≤ (predictCoreV6 sigmoidCdf cfg0V6 duke elon (-3)).cover ∧
    (predictCoreV6 sigmoidCdf cfg0V6 duke elon (-3)).cover ≤ 1 ∧
    ((predictCoreV6 sigmoidCdf cfg0V6 duke elon (-3)).cover = 1/2 ↔
      (predictCoreV6 sigmoidCdf cfg0V6 duke elon (-3)).edge = 0) :=
  (cover_in_half_one sigmoidCdf sigmoidCdf_mono sigmoidCdf_half sigmoidCdf_nonneg
    sigmoidCdf_le_one sigmoidCdf_eq_half cfg0V6 cfg0V7 duke elon "Duke" "Elon"
    (-3) 19 10000 (by simp [duke, elon])).1
